import Mathlib

/-!
Verification of the brush-selection map tool
(`src/brush_selection_plugin.py` — the generic variant — and
`src/BrushSelectionTool/brush_selection_plugin.py` — the variant with the
Shift modifier, the wheel radius control and the renderer-visibility check).

Shallow embedding conventions:
* map-space coordinates (`QgsPointXY`, Python floats) are modelled as ℚ;
* the sampler state (`self.path_points`, `self._last_added`) is an explicit
  `StrokeState` record, and every canvas-event handler becomes a pure state
  transformer; the zoom-dependent `canvas.mapUnitsPerPixel()` is passed as an
  explicit argument to each call that reads it, since the source reads it live;
* host geometry calls (`QgsGeometry.buffer`, `boundingBox`, `intersects`) are
  modelled by exact rational geometry: a buffer is the set of points whose
  (squared) distance to the buffered point / polyline is at most the squared
  radius, a bounding box is the coordinate-interval hull;
* Python exceptions are modelled as `Option` / `Except`: a call that may raise
  returns `none` / `.error ()`, and a `try/except` that swallows becomes the
  corresponding `match`.
-/

namespace BrushSel

/-- A point in map space, embedding `QgsPointXY` (x, y rational). -/
@[ext] structure PointXY where
  x : ℚ
  y : ℚ
deriving DecidableEq

/-- Embeds `BrushSelectionTool._dist_sq`: squared Euclidean distance between two
map points (`dx*dx + dy*dy`, no square root in the source). -/
def dist_sq (a b : PointXY) : ℚ :=
  (a.x - b.x) * (a.x - b.x) + (a.y - b.y) * (a.y - b.y)

/-- The sampler state of the tool: `self.path_points` and `self._last_added`. -/
structure StrokeState where
  path_points : List PointXY
  last_added : Option PointXY
deriving DecidableEq

/-- Embeds `BrushSelectionTool._append_point_if_far` (identical in both variants):
append `mp` if there is no reference point yet or `force` is set; otherwise
append only when the squared distance from the last-added point is at least
the squared threshold `(2 * mapUnitsPerPixel)^2`.  `mupp` is the live
`canvas.mapUnitsPerPixel()` read inside the call. -/
def append_point_if_far (mupp : ℚ) (mp : PointXY) (force : Bool)
    (s : StrokeState) : StrokeState :=
  match s.last_added with
  | none => ⟨s.path_points ++ [mp], some mp⟩
  | some la =>
    if force then ⟨s.path_points ++ [mp], some mp⟩
    else if dist_sq mp la ≥ (2 * mupp) * (2 * mupp) then
      ⟨s.path_points ++ [mp], some mp⟩
    else s

/-- Embeds `canvasPressEvent` on the left button: reset the stroke
(`path_points = []`, `_last_added = None`) and force-append the press point. -/
def pressState (mupp : ℚ) (p0 : PointXY) : StrokeState :=
  append_point_if_far mupp p0 true ⟨[], none⟩

/-- One `canvasMoveEvent` that reaches the sampler (dragging with the left
button held): a non-forced `_append_point_if_far`.  The pair carries the
`mapUnitsPerPixel` in effect when the move was sampled, then the map point. -/
def moveState (s : StrokeState) (mv : ℚ × PointXY) : StrokeState :=
  append_point_if_far mv.1 mv.2 false s

/-- The sampler effect of a whole sequence of move events. -/
def runMoves (s : StrokeState) (moves : List (ℚ × PointXY)) : StrokeState :=
  moves.foldl moveState s

/-- The finalized point list of a complete gesture, as `canvasReleaseEvent`
passes it to `_build_stroke_geometry`: press point (forced), the sampled
moves, then the release point force-appended. -/
def releasePath (m0 : ℚ) (p0 : PointXY) (moves : List (ℚ × PointXY))
    (mE : ℚ) (pend : PointXY) : List PointXY :=
  (append_point_if_far mE pend true (runMoves (pressState m0 p0) moves)).path_points

/-! Section: Geometry model (the host `QgsGeometry` capabilities) -/

/-- Clamp a rational to `[0, 1]`. -/
def clamp01 (t : ℚ) : ℚ := max 0 (min 1 t)

/-- The point of segment `[a, b]` closest to `q` (orthogonal projection,
clamped to the segment).  For a degenerate segment `a = b` the squared length
is `0` and ℚ-division by zero yields `0`, so the closest point is `a`. -/
def segClosest (q a b : PointXY) : PointXY :=
  let dx := b.x - a.x
  let dy := b.y - a.y
  let len2 := dx * dx + dy * dy
  let t := clamp01 (((q.x - a.x) * dx + (q.y - a.y) * dy) / len2)
  ⟨a.x + t * dx, a.y + t * dy⟩

/-- Squared distance from `q` to segment `[a, b]`. -/
def segDistSq (q a b : PointXY) : ℚ := dist_sq q (segClosest q a b)

/-- Consecutive segments of a polyline. -/
def segsOf : List PointXY → List (PointXY × PointXY)
  | [] => []
  | [_] => []
  | a :: b :: rest => (a, b) :: segsOf (b :: rest)

/-- A buffer geometry as the source builds it: `QgsGeometry.fromPointXY(p)
.buffer(r, segs)` or `QgsGeometry.fromPolylineXY(pts).buffer(r, segs)`.
The tessellation segment count is carried but the semantics (`covers`) is the
exact Euclidean buffer, the common idealization of both call sites. -/
inductive Geom where
  | pointBuffer (c : PointXY) (radius : ℚ) (segs : ℕ)
  | lineBuffer (pts : List PointXY) (radius : ℚ) (segs : ℕ)
deriving DecidableEq

/-- The buffer radius of a built geometry. -/
def Geom.radius : Geom → ℚ
  | .pointBuffer _ r _ => r
  | .lineBuffer _ r _ => r

/-- Membership of a map point in the buffer region (the exact semantics of
the host's buffer polygon): within radius of the centre, resp. of some
segment of the buffered polyline. -/
def Geom.covers : Geom → PointXY → Bool
  | .pointBuffer c r _, q => decide (dist_sq q c ≤ r * r)
  | .lineBuffer pts r _, q =>
    (segsOf pts).any fun ab => decide (segDistSq q ab.1 ab.2 ≤ r * r)

/-- Embeds `QgsGeometry.isEmpty()` on a buffer result: the GEOS buffer of a point or
line is empty exactly when the radius is nonpositive. -/
def Geom.isEmptyB : Geom → Bool
  | .pointBuffer _ r _ => decide (r ≤ 0)
  | .lineBuffer _ r _ => decide (r ≤ 0)

/-- An axis-aligned rectangle (`QgsRectangle`). -/
structure Rect where
  xmin : ℚ
  ymin : ℚ
  xmax : ℚ
  ymax : ℚ
deriving DecidableEq

/-- Rectangle intersection test (interval overlap on both axes). -/
def Rect.intersectsB (r1 r2 : Rect) : Bool :=
  decide (r1.xmin ≤ r2.xmax) && decide (r2.xmin ≤ r1.xmax) &&
  decide (r1.ymin ≤ r2.ymax) && decide (r2.ymin ≤ r1.ymax)

/-- A rectangle contains a point. -/
def Rect.containsP (r : Rect) (q : PointXY) : Prop :=
  r.xmin ≤ q.x ∧ q.x ≤ r.xmax ∧ r.ymin ≤ q.y ∧ q.y ≤ r.ymax

/-- Coordinate-interval hull of a point list (`boundingBox` of a polyline /
multipoint); degenerate zero box for the empty list, which the plugin never
produces. -/
def bboxPts : List PointXY → Rect
  | [] => ⟨0, 0, 0, 0⟩
  | [p] => ⟨p.x, p.y, p.x, p.y⟩
  | p :: q :: rest =>
    let r := bboxPts (q :: rest)
    ⟨min p.x r.xmin, min p.y r.ymin, max p.x r.xmax, max p.y r.ymax⟩

/-- Embeds `QgsGeometry.boundingBox()` of a buffer polygon: the hull of the buffered
object expanded by the radius on every side (exact for round caps/joins). -/
def Geom.boundingBox : Geom → Rect
  | .pointBuffer c r _ => ⟨c.x - r, c.y - r, c.x + r, c.y + r⟩
  | .lineBuffer pts r _ =>
    let b := bboxPts pts
    ⟨b.xmin - r, b.ymin - r, b.xmax + r, b.ymax + r⟩

/-- The host geometry engine as `_build_stroke_geometry` uses it.  Each
buffering capability may fail (a raised exception is modelled as `none`). -/
structure GeomEngine where
  bufferPoint : PointXY → ℚ → ℕ → Option Geom
  bufferLine : List PointXY → ℚ → ℕ → Option Geom

/-- The QGIS engine: GEOS point/line buffering on these inputs succeeds and
returns the buffer geometry. -/
def qgisEngine : GeomEngine where
  bufferPoint := fun p r s => some (Geom.pointBuffer p r s)
  bufferLine := fun pts r s => some (Geom.lineBuffer pts r s)

/-- Embeds `BrushSelectionTool._build_stroke_geometry` (identical in both variants):
`None` for an empty point list; a point buffer for a single point; the
polyline buffer otherwise; the tessellation floor is `max(8, segments)`; the
surrounding `try/except` turns any engine failure into `None`. -/
def build_stroke_geometry (E : GeomEngine) (points : List PointXY)
    (radius_mu : ℚ) (segments : ℕ) : Option Geom :=
  match points with
  | [] => none
  | [p] => E.bufferPoint p radius_mu (max 8 segments)
  | _ :: _ :: _ => E.bufferLine points radius_mu (max 8 segments)

/-! Section: Features, layers and the selection engine -/

/-- A vector feature's geometry, modelled as a multipoint: exact intersection
with the corridor polygon holds iff some point of the feature lies in the
corridor region. -/
structure FeatGeom where
  pts : List PointXY
deriving DecidableEq

/-- Embeds `QgsGeometry.isEmpty()` on a feature geometry. -/
def FeatGeom.isEmptyB (g : FeatGeom) : Bool := g.pts.isEmpty

/-- Embeds `fgeom.intersects(geom)`: exact intersection of the feature geometry with
the corridor geometry. -/
def FeatGeom.intersectsG (g : FeatGeom) (corridor : Geom) : Bool :=
  g.pts.any corridor.covers

/-- Bounding box of a feature geometry. -/
def FeatGeom.bbox (g : FeatGeom) : Rect := bboxPts g.pts

/-- A vector feature: id and (possibly missing) geometry; `feat.geometry()`
returning a null geometry is `none`. -/
structure Feature where
  fid : ℤ
  fgeom : Option FeatGeom
deriving DecidableEq

/-- The body of the per-feature loop in `_select_features`: skip a feature
whose geometry is missing or empty, keep it when the exact intersection test
succeeds (`if not fgeom or fgeom.isEmpty(): continue; if fgeom.intersects(geom):
ids.append(feat.id())`). -/
def featureMatches (corridor : Geom) (f : Feature) : Bool :=
  match f.fgeom with
  | none => false
  | some g => if g.isEmptyB then false else g.intersectsG corridor

/-- The ids collected by running the exact intersection test over a feature
list, in iteration order. -/
def collectIds (corridor : Geom) (feats : List Feature) : List ℤ :=
  (feats.filter (featureMatches corridor)).map fun f => f.fid

/-- The host's `getFeatures(QgsFeatureRequest().setFilterRect(rect))` filter:
a feature is returned iff it has a nonempty geometry whose bounding box
intersects the request rectangle. -/
def passesFilterRect (rect : Rect) (f : Feature) : Bool :=
  match f.fgeom with
  | none => false
  | some g => !g.isEmptyB && Rect.intersectsB g.bbox rect

/-- The feature stream produced by the bbox-filtered request. -/
def getFeaturesRect (rect : Rect) (feats : List Feature) : List Feature :=
  feats.filter (passesFilterRect rect)

/-- The ids the source actually collects for one layer: the bbox prefilter
(`setFilterRect(bbox)`) followed by the skip/exact-intersection loop. -/
def collectIdsPrefiltered (corridor : Geom) (feats : List Feature) : List ℤ :=
  collectIds corridor (getFeaturesRect corridor.boundingBox feats)

/-- The two `QgsVectorLayer` selection behaviours the source uses. -/
inductive SelectBehavior where
  | SetSelection
  | AddToSelection
deriving DecidableEq

/-- A vector layer: its features, its persistent selected-id set, the
renderer visibility predicate (`renderer.willRenderFeature`, used by the
BrushSelectionTool variant only), and a flag modelling whether any host call
made while processing this layer raises an exception. -/
structure VectorLayer where
  name : String
  features : List Feature
  selectedFeatureIds : Finset ℤ
  willRender : Feature → Bool
  raises : Bool

/-- Embeds `layer.selectByIds(ids, method)`. -/
def selectByIds (L : VectorLayer) (ids : List ℤ) (m : SelectBehavior) :
    VectorLayer :=
  match m with
  | .SetSelection => { L with selectedFeatureIds := ids.toFinset }
  | .AddToSelection =>
    { L with selectedFeatureIds := L.selectedFeatureIds ∪ ids.toFinset }

/-- Embeds `layer.removeSelection()`. -/
def removeSelection (L : VectorLayer) : VectorLayer :=
  { L with selectedFeatureIds := ∅ }

/-- Per-layer body of the generic variant's `_select_features`
(src/brush_selection_plugin.py lines 179-198): collect ids with the bbox
prefilter, and only when `ids` is nonempty apply `selectByIds` with
`AddToSelection` if `add_to_selection` else `SetSelection`; a zero-match
layer is left untouched.  `.error ()` models a host exception raised while
processing the layer. -/
def processLayer_v1 (add_to_selection : Bool) (geom : Geom) (L : VectorLayer) :
    Except Unit VectorLayer :=
  if L.raises then .error () else
  let ids := collectIdsPrefiltered geom L.features
  if ids.isEmpty then .ok L
  else .ok (selectByIds L ids
    (if add_to_selection then .AddToSelection else .SetSelection))

/-- The ids collected per layer by the BrushSelectionTool variant: bbox
prefilter, skip/exact-intersection, then the renderer visibility check
(`renderer.willRenderFeature`). -/
def collectIds_v2 (geom : Geom) (L : VectorLayer) : List ℤ :=
  ((getFeaturesRect geom.boundingBox L.features).filter
    fun f => featureMatches geom f && L.willRender f).map fun f => f.fid

/-- The selection method the BrushSelectionTool variant picks
(src/BrushSelectionTool/brush_selection_plugin.py lines 254-260):
`should_add = self.add_to_selection or self.shift_pressed`, then
`AddToSelection` if `should_add` else `SetSelection`. -/
def methodFor (add_to_selection shift_pressed : Bool) : SelectBehavior :=
  if add_to_selection || shift_pressed then .AddToSelection else .SetSelection

/-- Per-layer body of the BrushSelectionTool variant's `_select_features`
(lines 230-269): when `ids` is nonempty, `selectByIds` with `methodFor`;
when empty, `removeSelection` exactly if `should_add` is false. -/
def processLayer_v2 (add_to_selection shift_pressed : Bool) (geom : Geom)
    (L : VectorLayer) : Except Unit VectorLayer :=
  if L.raises then .error () else
  let ids := collectIds_v2 geom L
  if ids.isEmpty then
    if add_to_selection || shift_pressed then .ok L
    else .ok (removeSelection L)
  else .ok (selectByIds L ids (methodFor add_to_selection shift_pressed))

/-- The layer loop: processes candidate layers in order, an exception in any
layer aborts the loop and propagates. -/
def runLayers (f : VectorLayer → Except Unit VectorLayer) :
    List VectorLayer → Except Unit (List VectorLayer)
  | [] => .ok []
  | L :: rest =>
    match f L with
    | .error e => .error e
    | .ok L2 =>
      match runLayers f rest with
      | .error e => .error e
      | .ok ls => .ok (L2 :: ls)

/-- Embeds `_select_features` of the generic variant, with the canvas render flag
made explicit: `setRenderFlag(False)` at entry (line 175), the layer loop,
then `setRenderFlag(True)` (line 201).  There is no `try/finally`, so the
returned flag — the canvas render flag when the call terminates, normally or
by exception — is `true` only when no step raised. -/
def select_features_v1 (add_to_selection : Bool) (geom : Geom)
    (layers : List VectorLayer) : Bool × Except Unit (List VectorLayer) :=
  match runLayers (processLayer_v1 add_to_selection geom) layers with
  | .error e => (false, .error e)
  | .ok ls => (true, .ok ls)

/-- Embeds `_select_features` of the BrushSelectionTool variant (lines 221-283),
render flag made explicit as in `select_features_v1`. -/
def select_features_v2 (add_to_selection shift_pressed : Bool) (geom : Geom)
    (layers : List VectorLayer) : Bool × Except Unit (List VectorLayer) :=
  match runLayers (processLayer_v2 add_to_selection shift_pressed geom) layers with
  | .error e => (false, .error e)
  | .ok ls => (true, .ok ls)

/-- Embeds `setRadiusPx` (identical in both variants):
`self.radius_px = max(1, int(radius_px))`. -/
def setRadiusPx (radius_px : ℤ) : ℤ := max 1 radius_px

/-- The new radius computed by the BrushSelectionTool variant's `wheelEvent`
under Shift (lines 119-121): step `±2` by wheel direction, clamped into
`[1, 200]` by `max(1, min(200, self.radius_px + step))`. -/
def wheelNewRadius (radius_px delta : ℤ) : ℤ :=
  let step : ℤ := if delta > 0 then 2 else -2
  max 1 (min 200 (radius_px + step))

/-- The guard in `canvasReleaseEvent` (line 93): the selection pass runs only
when the built stroke geometry is non-null and nonempty
(`if stroke_geom and not stroke_geom.isEmpty()`). -/
def runsSelection (path_points : List PointXY) (radius_mu : ℚ)
    (segments : ℕ) : Bool :=
  match build_stroke_geometry qgisEngine path_points radius_mu segments with
  | none => false
  | some g => !g.isEmptyB

/-- The stroke geometry computed by `_updateStrokeRubberBand` (the
live-preview path): nothing when `path_points` is empty, otherwise the same
`_build_stroke_geometry` call the release path makes. -/
def updateStrokeRubberBand_geom (path_points : List PointXY) (radius_mu : ℚ)
    (segments : ℕ) : Option Geom :=
  if path_points.isEmpty then none
  else build_stroke_geometry qgisEngine path_points radius_mu segments

/-! Section: Instrumented sampler run (ghost annotations for the spacing invariant)

Each appended point is recorded together with whether it was force-appended
and the `mapUnitsPerPixel` in effect at the call that appended it.  The
instrumented run projects exactly onto the source sampler (`projA` lemmas). -/

/-- One recorded sample: the point, whether it was appended through the
`last_added is None or force` branch, and the `mapUnitsPerPixel` at the call. -/
abbrev SampleEntry := PointXY × Bool × ℚ

/-- Sampler state with the ghost annotations. -/
structure AnnotState where
  entries : List SampleEntry
  last_added : Option PointXY

/-- Embeds `_append_point_if_far` on the instrumented state: the same branching as
`append_point_if_far`, recording the annotation of the appended point. -/
def append_annot (mupp : ℚ) (mp : PointXY) (force : Bool) (s : AnnotState) :
    AnnotState :=
  match s.last_added with
  | none => ⟨s.entries ++ [(mp, true, mupp)], some mp⟩
  | some la =>
    if force then ⟨s.entries ++ [(mp, true, mupp)], some mp⟩
    else if dist_sq mp la ≥ (2 * mupp) * (2 * mupp) then
      ⟨s.entries ++ [(mp, false, mupp)], some mp⟩
    else s

/-- Instrumented move sequence. -/
def runMovesAnnot (s : AnnotState) (moves : List (ℚ × PointXY)) : AnnotState :=
  moves.foldl (fun st mv => append_annot mv.1 mv.2 false st) s

/-- Instrumented full gesture: forced press point, moves, forced release
point. -/
def runGestureAnnot (m0 : ℚ) (p0 : PointXY) (moves : List (ℚ × PointXY))
    (mE : ℚ) (pend : PointXY) : List SampleEntry :=
  (append_annot mE pend true
    (runMovesAnnot (append_annot m0 p0 true ⟨[], none⟩) moves)).entries

/-- Forgetting the annotations recovers the source sampler state. -/
def projA (s : AnnotState) : StrokeState :=
  ⟨s.entries.map (fun e => e.1), s.last_added⟩

/-- A consecutive pair is acceptable: the later point was force-appended, or
it is at least the squared spacing threshold (at its own sample time) away
from its predecessor. -/
def pairOk (prev e : SampleEntry) : Prop :=
  e.2.1 = true ∨ dist_sq e.1 prev.1 ≥ (2 * e.2.2) * (2 * e.2.2)

/-- Every recorded point is acceptably spaced from its predecessor `prev`. -/
def spacedChain : SampleEntry → List SampleEntry → Prop
  | _, [] => True
  | prev, e :: rest => pairOk prev e ∧ spacedChain e rest

/-- Every consecutive pair of the recorded stroke is acceptably spaced. -/
def spacedOk : List SampleEntry → Prop
  | [] => True
  | e :: rest => spacedChain e rest

theorem projA_append (m : ℚ) (mp : PointXY) (f : Bool) (s : AnnotState) :
    projA (append_annot m mp f s) = append_point_if_far m mp f (projA s) := by
  cases s with
  | mk entries last =>
    cases last with
    | none => simp [append_annot, append_point_if_far, projA]
    | some la =>
      cases f with
      | true => simp [append_annot, append_point_if_far, projA]
      | false =>
        simp only [append_annot, append_point_if_far, projA]
        split_ifs <;> simp

theorem projA_runMoves (moves : List (ℚ × PointXY)) (s : AnnotState) :
    projA (runMovesAnnot s moves) = runMoves (projA s) moves := by
  induction moves generalizing s with
  | nil => simp [runMovesAnnot, runMoves]
  | cons mv rest ih =>
    simp only [runMovesAnnot, runMoves, List.foldl_cons] at *
    rw [ih, projA_append]
    rfl

theorem getLast?_cons_getLastD {α : Type} (a : α) (t : List α) :
    (a :: t).getLast? = some (t.getLastD a) := by
  induction t generalizing a with
  | nil => rfl
  | cons b t2 ih => rw [List.getLast?_cons_cons, ih, List.getLastD_cons]

theorem spacedChain_append (l : List SampleEntry) (p e : SampleEntry)
    (h : spacedChain p l) (hp : pairOk (l.getLastD p) e) :
    spacedChain p (l ++ [e]) := by
  induction l generalizing p with
  | nil => exact ⟨hp, trivial⟩
  | cons a t ih =>
    rw [List.getLastD_cons] at hp
    exact ⟨h.1, ih a h.2 hp⟩

theorem spacedOk_append_forced (l : List SampleEntry) (e : SampleEntry)
    (h : spacedOk l) (hf : e.2.1 = true) : spacedOk (l ++ [e]) := by
  cases l with
  | nil => exact trivial
  | cons a t => exact spacedChain_append t a e h (Or.inl hf)

theorem spacedOk_append_far (l : List SampleEntry) (e pl : SampleEntry)
    (h : spacedOk l) (hl : l.getLast? = some pl)
    (hd : dist_sq e.1 pl.1 ≥ (2 * e.2.2) * (2 * e.2.2)) :
    spacedOk (l ++ [e]) := by
  cases l with
  | nil => exact trivial
  | cons a t =>
    rw [getLast?_cons_getLastD] at hl
    have hpl : t.getLastD a = pl := by injection hl
    exact spacedChain_append t a e h (Or.inr (hpl ▸ hd))

/-- The last recorded entry carries the `_last_added` reference point. -/
def lastOk (s : AnnotState) : Prop :=
  ∀ la, s.last_added = some la →
    ∃ e, s.entries.getLast? = some e ∧ e.1 = la

/-- Invariant of the instrumented sampler. -/
def InvA (s : AnnotState) : Prop := spacedOk s.entries ∧ lastOk s

theorem invA_append (m : ℚ) (mp : PointXY) (f : Bool) (s : AnnotState)
    (h : InvA s) : InvA (append_annot m mp f s) := by
  cases hl : s.last_added with
  | none =>
    refine ⟨?_, ?_⟩
    · simpa [append_annot, hl] using
        spacedOk_append_forced s.entries (mp, true, m) h.1 rfl
    · intro la hla
      simp only [append_annot, hl] at hla ⊢
      refine ⟨(mp, true, m), by simp, ?_⟩
      simpa using hla
  | some la0 =>
    cases f with
    | true =>
      refine ⟨?_, ?_⟩
      · simpa [append_annot, hl] using
          spacedOk_append_forced s.entries (mp, true, m) h.1 rfl
      · intro la hla
        simp only [append_annot, hl, if_pos] at hla ⊢
        refine ⟨(mp, true, m), by simp, ?_⟩
        simpa using hla
    | false =>
      by_cases hd : dist_sq mp la0 ≥ (2 * m) * (2 * m)
      · obtain ⟨e0, he0, he0p⟩ := h.2 la0 hl
        refine ⟨?_, ?_⟩
        · have := spacedOk_append_far s.entries (mp, false, m) e0 h.1 he0
            (by simpa [he0p] using hd)
          simpa [append_annot, hl, hd] using this
        · intro la hla
          simp only [append_annot, hl, if_neg Bool.false_ne_true, if_pos hd] at hla ⊢
          refine ⟨(mp, false, m), by simp, ?_⟩
          simpa using hla
      · have : append_annot m mp false s = s := by
          simp [append_annot, hl, hd]
        rw [this]
        exact h


theorem invA_runMoves (moves : List (ℚ × PointXY)) (s : AnnotState)
    (h : InvA s) : InvA (runMovesAnnot s moves) := by
  induction moves generalizing s with
  | nil => exact h
  | cons mv rest ih =>
    simp only [runMovesAnnot, List.foldl_cons] at *
    exact ih _ (invA_append mv.1 mv.2 false s h)

theorem append_annot_entries (m : ℚ) (mp : PointXY) (f : Bool) (s : AnnotState) :
    (append_annot m mp f s).entries = s.entries ∨
    ∃ e, (append_annot m mp f s).entries = s.entries ++ [e] := by
  unfold append_annot
  cases s.last_added with
  | none => exact Or.inr ⟨(mp, true, m), rfl⟩
  | some la =>
    by_cases hf : f = true
    · subst hf; exact Or.inr ⟨(mp, true, m), rfl⟩
    · simp only [Bool.not_eq_true] at hf
      subst hf
      simp only [Bool.false_eq_true, if_false]
      split_ifs with hd
      · exact Or.inr ⟨(mp, false, m), rfl⟩
      · exact Or.inl rfl

theorem head?_append {α : Type} (l l2 : List α) (a : α)
    (h : l.head? = some a) : (l ++ l2).head? = some a := by
  cases l with
  | nil => simp at h
  | cons b t => simpa using h

theorem head?_append_annot (m : ℚ) (mp : PointXY) (f : Bool) (s : AnnotState)
    (e0 : SampleEntry) (h : s.entries.head? = some e0) :
    (append_annot m mp f s).entries.head? = some e0 := by
  rcases append_annot_entries m mp f s with heq | ⟨e, heq⟩
  · rw [heq]; exact h
  · rw [heq]; exact head?_append _ _ _ h

theorem head?_runMovesAnnot (moves : List (ℚ × PointXY)) (s : AnnotState)
    (e0 : SampleEntry) (h : s.entries.head? = some e0) :
    (runMovesAnnot s moves).entries.head? = some e0 := by
  induction moves generalizing s with
  | nil => exact h
  | cons mv rest ih =>
    simp only [runMovesAnnot, List.foldl_cons] at *
    exact ih _ (head?_append_annot mv.1 mv.2 false s e0 h)

theorem append_annot_force_entries (m : ℚ) (mp : PointXY) (s : AnnotState) :
    (append_annot m mp true s).entries = s.entries ++ [(mp, true, m)] := by
  unfold append_annot
  cases s.last_added <;> simp

/-- C6: over any complete gesture (press, moves, release), the instrumented
run projects exactly onto the sampler's finalized point list; every
consecutive pair of recorded points is either force-appended or at squared
distance at least `(2 * mapUnitsPerPixel-at-its-sample-time)^2` from its
predecessor; the first and last recorded points are precisely the forced
press and release points; and a non-forced `_append_point_if_far` whose
squared distance from the last-added point is below the squared threshold
leaves the sampler state unchanged. -/
theorem c6_spacing_invariant (m0 : ℚ) (p0 : PointXY)
    (moves : List (ℚ × PointXY)) (mE : ℚ) (pend : PointXY)
    (s : StrokeState) (mupp : ℚ) (mp la : PointXY) :
    (runGestureAnnot m0 p0 moves mE pend).map (fun e => e.1) =
      releasePath m0 p0 moves mE pend
    ∧ spacedOk (runGestureAnnot m0 p0 moves mE pend)
    ∧ (runGestureAnnot m0 p0 moves mE pend).head? = some (p0, true, m0)
    ∧ (runGestureAnnot m0 p0 moves mE pend).getLast? = some (pend, true, mE)
    ∧ (s.last_added = some la → dist_sq mp la < (2 * mupp) * (2 * mupp) →
        append_point_if_far mupp mp false s = s) := by
  have hpress : append_annot m0 p0 true ⟨[], none⟩ =
      ⟨[(p0, true, m0)], some p0⟩ := rfl
  have hpressInv : InvA (⟨[(p0, true, m0)], some p0⟩ : AnnotState) := by
    refine ⟨trivial, ?_⟩
    intro la0 hla0
    exact ⟨(p0, true, m0), rfl, by simpa using hla0⟩
  have hmidInv : InvA (runMovesAnnot (append_annot m0 p0 true ⟨[], none⟩) moves) := by
    rw [hpress]; exact invA_runMoves moves _ hpressInv
  have hfinInv : InvA (append_annot mE pend true
      (runMovesAnnot (append_annot m0 p0 true ⟨[], none⟩) moves)) :=
    invA_append mE pend true _ hmidInv
  refine ⟨?_, hfinInv.1, ?_, ?_, ?_⟩
  · have hproj : projA (append_annot mE pend true
        (runMovesAnnot (append_annot m0 p0 true ⟨[], none⟩) moves)) =
        append_point_if_far mE pend true (runMoves (pressState m0 p0) moves) := by
      rw [projA_append, projA_runMoves, projA_append]
      rfl
    show (projA (append_annot mE pend true
        (runMovesAnnot (append_annot m0 p0 true ⟨[], none⟩) moves))).path_points =
      releasePath m0 p0 moves mE pend
    rw [hproj]
    rfl
  · have hhead : (runMovesAnnot (append_annot m0 p0 true ⟨[], none⟩)
        moves).entries.head? = some (p0, true, m0) := by
      rw [hpress]
      exact head?_runMovesAnnot moves _ _ rfl
    exact head?_append_annot mE pend true _ _ hhead
  · show (append_annot mE pend true _).entries.getLast? = _
    rw [append_annot_force_entries]
    simp
  · intro hla hd
    unfold append_point_if_far
    rw [hla]
    simp [not_le.mpr hd]

/-- C6 witness: the below-threshold no-op hypotheses discharged at a concrete
sampler state, together with the gesture-level conjuncts at a concrete
gesture. -/
theorem c6_spacing_invariant_witness :
    (runGestureAnnot 1 ⟨0, 0⟩ [(1, ⟨3, 0⟩)] 1 ⟨3, 0⟩).map (fun e => e.1) =
      releasePath 1 ⟨0, 0⟩ [(1, ⟨3, 0⟩)] 1 ⟨3, 0⟩
    ∧ spacedOk (runGestureAnnot 1 ⟨0, 0⟩ [(1, ⟨3, 0⟩)] 1 ⟨3, 0⟩)
    ∧ append_point_if_far 1 ⟨0, 0⟩ false ⟨[⟨0, 0⟩], some ⟨0, 0⟩⟩ =
        ⟨[⟨0, 0⟩], some ⟨0, 0⟩⟩ := by
  have h := c6_spacing_invariant 1 ⟨0, 0⟩ [(1, ⟨3, 0⟩)] 1 ⟨3, 0⟩
    ⟨[⟨0, 0⟩], some ⟨0, 0⟩⟩ 1 ⟨0, 0⟩ ⟨0, 0⟩
  exact ⟨h.1, h.2.1, h.2.2.2.2 rfl (by norm_num [dist_sq])⟩

/-! Section: Path-shape lemmas for the release path -/

theorem append_force_path (m : ℚ) (mp : PointXY) (s : StrokeState) :
    (append_point_if_far m mp true s).path_points = s.path_points ++ [mp] := by
  unfold append_point_if_far
  cases s.last_added <;> simp

theorem append_path_cases (m : ℚ) (mp : PointXY) (f : Bool) (s : StrokeState) :
    (append_point_if_far m mp f s).path_points = s.path_points ∨
    (append_point_if_far m mp f s).path_points = s.path_points ++ [mp] := by
  unfold append_point_if_far
  cases s.last_added with
  | none => exact Or.inr rfl
  | some la =>
    by_cases hf : f = true
    · subst hf; exact Or.inr rfl
    · simp only [Bool.not_eq_true] at hf
      subst hf
      simp only [Bool.false_eq_true, if_false]
      split_ifs with hd
      · exact Or.inr rfl
      · exact Or.inl rfl

theorem runMoves_path_mono (moves : List (ℚ × PointXY)) (s : StrokeState) :
    s.path_points.length ≤ (runMoves s moves).path_points.length := by
  induction moves generalizing s with
  | nil => exact le_refl _
  | cons mv rest ih =>
    simp only [runMoves, List.foldl_cons] at *
    refine le_trans ?_ (ih (moveState s mv))
    rcases append_path_cases mv.1 mv.2 false s with h | h
    · exact le_of_eq (congrArg List.length h.symm)
    · rw [moveState, h]; simp

theorem head?_runMoves_path (moves : List (ℚ × PointXY)) (s : StrokeState)
    (p : PointXY) (h : s.path_points.head? = some p) :
    (runMoves s moves).path_points.head? = some p := by
  induction moves generalizing s with
  | nil => exact h
  | cons mv rest ih =>
    simp only [runMoves, List.foldl_cons] at *
    refine ih (moveState s mv) ?_
    rcases append_path_cases mv.1 mv.2 false s with hc | hc
    · rw [moveState, hc]; exact h
    · rw [moveState, hc]; exact head?_append _ _ _ h

/-- C10: every complete primary-button gesture hands the corridor builder a
stroke of at least two points (press point and forced release point); a click
with no movement yields exactly the two-point stroke `[press, release]`
(coincident when released in place); consequently the builder always takes
the polyline branch on the selection path, never the single-point circular
buffer branch. -/
theorem c10_two_point_stroke (m0 : ℚ) (p0 : PointXY)
    (moves : List (ℚ × PointXY)) (mE : ℚ) (pend : PointXY)
    (r : ℚ) (segs : ℕ) :
    2 ≤ (releasePath m0 p0 moves mE pend).length
    ∧ releasePath m0 p0 [] mE p0 = [p0, p0]
    ∧ build_stroke_geometry qgisEngine (releasePath m0 p0 moves mE pend) r segs =
        some (Geom.lineBuffer (releasePath m0 p0 moves mE pend) r (max 8 segs)) := by
  have hlen : 2 ≤ (releasePath m0 p0 moves mE pend).length := by
    have h1 : (1 : ℕ) ≤ (runMoves (pressState m0 p0) moves).path_points.length :=
      runMoves_path_mono moves (pressState m0 p0)
    rw [releasePath, append_force_path]
    simp only [List.length_append, List.length_cons, List.length_nil]
    omega
  refine ⟨hlen, rfl, ?_⟩
  rcases hL : releasePath m0 p0 moves mE pend with _ | ⟨a, _ | ⟨b, rest⟩⟩
  · rw [hL] at hlen; simp at hlen
  · rw [hL] at hlen; simp at hlen
  · rfl

/-- C9: the live-preview path (`_updateStrokeRubberBand`) and the release
path (`canvasReleaseEvent`) build the corridor through the very same pure
`_build_stroke_geometry` function, so on the same point sequence, radius and
segment count they produce identical geometry; and the decimated stroke of a
gesture is determined by the raw samples alone, always retaining the first
(press) and last (release) raw points.  Determinism holds because every
sampler and builder operation is a pure function of the explicitly-passed
inputs (raw points, per-sample map-units-per-pixel, radius, segments). -/
theorem c9_deterministic_paths (pts : List PointXY) (r : ℚ) (segs : ℕ)
    (m0 : ℚ) (p0 : PointXY) (moves : List (ℚ × PointXY)) (mE : ℚ)
    (pend : PointXY) :
    updateStrokeRubberBand_geom pts r segs =
      build_stroke_geometry qgisEngine pts r segs
    ∧ (releasePath m0 p0 moves mE pend).head? = some p0
    ∧ (releasePath m0 p0 moves mE pend).getLast? = some pend := by
  refine ⟨?_, ?_, ?_⟩
  · cases pts with
    | nil => rfl
    | cons a t => rfl
  · have hmid : (runMoves (pressState m0 p0) moves).path_points.head? = some p0 :=
      head?_runMoves_path moves (pressState m0 p0) p0 rfl
    rw [releasePath, append_force_path]
    exact head?_append _ _ _ hmid
  · rw [releasePath, append_force_path]
    simp

/-! Section: C5: degenerate two-point stroke -/

theorem segDistSq_degenerate (q p : PointXY) : segDistSq q p p = dist_sq q p := by
  simp [segDistSq, segClosest, clamp01, dist_sq, sub_self]

/-- C5: building the corridor from the two-point stroke `[p, p]` with
coincident points succeeds (no exception reaches the caller: the result is
`some`, not `none`), as does the single-point build, and the two corridors
are geometrically identical — both are the circular buffer of radius `r`
about `p` (pointwise equal coverage). -/
theorem c5_coincident_two_point (p : PointXY) (r : ℚ) (segs : ℕ) (q : PointXY) :
    build_stroke_geometry qgisEngine [p, p] r segs =
      some (Geom.lineBuffer [p, p] r (max 8 segs))
    ∧ build_stroke_geometry qgisEngine [p] r segs =
      some (Geom.pointBuffer p r (max 8 segs))
    ∧ (Geom.lineBuffer [p, p] r (max 8 segs)).covers q =
      (Geom.pointBuffer p r (max 8 segs)).covers q := by
  refine ⟨rfl, rfl, ?_⟩
  simp [Geom.covers, segsOf, segDistSq_degenerate]

/-! Section: C3: radius clamping -/

/-- C3 counterexample: the radius setter does not clamp from above — at input
300 it stores 300, not the configured maximum 200. -/
theorem c3_counterexample : setRadiusPx 300 = 300 ∧ setRadiusPx 300 ≠ 200 := by
  constructor <;> norm_num [setRadiusPx]

/-- C3 (amended): the setter `setRadiusPx` clamps only from below, storing
`max 1 v` (so every stored radius is at least 1, and any `v ≤ 200` behaves as
the claim says); the 200-pixel maximum is enforced not by the setter but by
the Shift+wheel radius adjustment, whose result always lies in `[1, 200]`. -/
theorem c3_radius_clamping (v r d : ℤ) :
    setRadiusPx v = max 1 v
    ∧ 1 ≤ setRadiusPx v
    ∧ 1 ≤ wheelNewRadius r d
    ∧ wheelNewRadius r d ≤ 200 := by
  refine ⟨rfl, le_max_left _ _, le_max_left _ _, ?_⟩
  simp only [wheelNewRadius]
  exact max_le (by norm_num) (min_le_left _ _)

/-! Section: C1: zero-match behaviour under replace policy -/

/-- A corridor used by concrete selection-pass evaluations. -/
def smallGeom : Geom := Geom.pointBuffer ⟨0, 0⟩ 1 8

/-- A layer with existing selection `{1, 2}` and no features, so every brush
pass yields zero matches on it. -/
def staleLayer : VectorLayer := ⟨"L", [], {1, 2}, fun _ => true, false⟩

/-- C1 counterexample: in the generic variant, a selection pass under replace
policy (`add_to_selection = false`) over a layer with existing selection
`{1, 2}` and zero matches returns the layer *unchanged* — its selection stays
`{1, 2}`, which is not empty: no explicit empty selection is applied. -/
theorem c1_counterexample :
    select_features_v1 false smallGeom [staleLayer] =
      (true, Except.ok [staleLayer])
    ∧ staleLayer.selectedFeatureIds ≠ (∅ : Finset ℤ) := by
  exact ⟨rfl, by decide⟩

/-- C1 (amended): only the BrushSelectionTool variant clears on zero matches:
its per-layer body under replace policy (`add_to_selection` false, Shift not
pressed) applies `removeSelection`, leaving an empty selection; the generic
variant's per-layer body (`if ids:` guard, no else branch) leaves a
zero-match layer's existing selection unchanged under either policy. -/
theorem c1_zero_match_replace (g : Geom) (L : VectorLayer) (add : Bool)
    (h1 : L.raises = false) (h2 : collectIds_v2 g L = [])
    (h3 : collectIdsPrefiltered g L.features = []) :
    processLayer_v2 false false g L = .ok (removeSelection L)
    ∧ (removeSelection L).selectedFeatureIds = ∅
    ∧ processLayer_v1 add g L = .ok L := by
  refine ⟨?_, rfl, ?_⟩
  · unfold processLayer_v2
    rw [h1]
    simp [h2]
  · unfold processLayer_v1
    rw [h1]
    simp [h3]

/-- C1 witness: the amended statement evaluated on the concrete zero-match
layer. -/
theorem c1_zero_match_replace_witness :
    processLayer_v2 false false smallGeom staleLayer =
      .ok (removeSelection staleLayer)
    ∧ processLayer_v1 false smallGeom staleLayer = .ok staleLayer := by
  have h := c1_zero_match_replace smallGeom staleLayer false rfl rfl rfl
  exact ⟨h.1, h.2.2⟩

/-! Section: C2: render flag restoration on error paths -/

/-- A layer on which a host call raises while the selection pass processes
it (e.g. `layer.getFeatures`, the intersection test, or `selectByIds`). -/
def raisingLayer : VectorLayer := ⟨"L", [], ∅, fun _ => true, true⟩

/-- A layer the pass processes without error. -/
def okLayer : VectorLayer := ⟨"M", [], ∅, fun _ => true, false⟩

/-- C2 evaluated at the failing input: in both variants `_select_features`
disables rendering (`setRenderFlag(False)`) and only reaches
`setRenderFlag(True)` after the layer loop, with no `try/finally`; when
processing a layer raises, the exception propagates and the final render flag
is `false` — rendering stays disabled, contradicting the claim.  The third
conjunct shows the exception-free pass does restore the flag. -/
theorem c2_render_flag_not_restored :
    (select_features_v1 true smallGeom [raisingLayer]).1 = false
    ∧ (select_features_v2 false false smallGeom [raisingLayer]).1 = false
    ∧ (select_features_v1 true smallGeom [okLayer]).1 = true := by
  exact ⟨rfl, rfl, rfl⟩

/-! Section: C4: the Shift modifier and the merge policy -/

/-- A feature at the corridor centre, so it always matches. -/
def centreFeature : Feature := ⟨2, some ⟨[⟨0, 0⟩]⟩⟩

/-- A layer holding `centreFeature` with existing selection `{1}`. -/
def unionLayer : VectorLayer := ⟨"L", [centreFeature], {1}, fun _ => true, false⟩

/-- C4 counterexample: with the configured default already union
(`add_to_selection = true`) and Shift held, the claim demands the inverse
(replace), i.e. a resulting selection `{2}`; the code instead still unions,
yielding `{1, 2}`. -/
theorem c4_counterexample :
    (processLayer_v2 true true smallGeom unionLayer).map
      (fun l => l.selectedFeatureIds) = Except.ok ({1, 2} : Finset ℤ)
    ∧ ({1, 2} : Finset ℤ) ≠ ({2} : Finset ℤ) := by
  constructor
  · show (processLayer_v2 true true smallGeom unionLayer).map
      (fun l => l.selectedFeatureIds) = Except.ok ({1, 2} : Finset ℤ)
    norm_num [processLayer_v2, collectIds_v2, getFeaturesRect, passesFilterRect,
      featureMatches, FeatGeom.isEmptyB, FeatGeom.intersectsG, FeatGeom.bbox,
      bboxPts, Rect.intersectsB, Geom.covers, Geom.boundingBox, segsOf, dist_sq,
      smallGeom, centreFeature, unionLayer, selectByIds, methodFor, List.filter]
    simp only [Except.map]
    congr 1
  · decide

/-- C4 (amended): the momentary Shift modifier does not invert the configured
default — it forces union for the gesture: `should_add = add_to_selection or
shift_pressed`, so a replace default with Shift becomes union, while a union
default with Shift stays union (only `add_to_selection = false` without Shift
gives replace). -/
theorem c4_shift_forces_union :
    methodFor false true = SelectBehavior.AddToSelection
    ∧ methodFor true true = SelectBehavior.AddToSelection
    ∧ methodFor true false = SelectBehavior.AddToSelection
    ∧ methodFor false false = SelectBehavior.SetSelection := by
  exact ⟨rfl, rfl, rfl, rfl⟩

/-! Section: C7: soundness of the bbox prefilter -/

theorem clamp01_nonneg (t : ℚ) : 0 ≤ clamp01 t := le_max_left 0 _

theorem clamp01_le_one (t : ℚ) : clamp01 t ≤ 1 :=
  max_le (by norm_num) (min_le_left 1 t)

theorem sq_le_interval (d r : ℚ) (h : d * d ≤ r * r) (hr : 0 ≤ r) :
    -r ≤ d ∧ d ≤ r := by
  constructor <;> nlinarith [sq_nonneg (d + r), sq_nonneg (d - r)]

theorem convex_min_max (a b t : ℚ) (h0 : 0 ≤ t) (h1 : t ≤ 1) :
    min a b ≤ a + t * (b - a) ∧ a + t * (b - a) ≤ max a b := by
  rcases le_total a b with hab | hab
  · rw [min_eq_left hab, max_eq_right hab]
    constructor <;> nlinarith
  · rw [min_eq_right hab, max_eq_left hab]
    constructor <;> nlinarith

theorem mem_bboxPts (q : PointXY) (pts : List PointXY) (h : q ∈ pts) :
    (bboxPts pts).containsP q := by
  induction pts with
  | nil => simp at h
  | cons p rest ih =>
    cases rest with
    | nil =>
      have hq : q = p := by simpa using h
      subst hq
      exact ⟨le_refl _, le_refl _, le_refl _, le_refl _⟩
    | cons p2 rest2 =>
      rcases List.mem_cons.mp h with hq | hq
      · subst hq
        exact ⟨min_le_left _ _, le_max_left _ _, min_le_left _ _, le_max_left _ _⟩
      · obtain ⟨h1, h2, h3, h4⟩ := ih hq
        exact ⟨le_trans (min_le_right _ _) h1, le_trans h2 (le_max_right _ _),
          le_trans (min_le_right _ _) h3, le_trans h4 (le_max_right _ _)⟩

theorem segsOf_mem (pts : List PointXY) (a b : PointXY)
    (h : (a, b) ∈ segsOf pts) : a ∈ pts ∧ b ∈ pts := by
  induction pts with
  | nil => simp [segsOf] at h
  | cons p rest ih =>
    cases rest with
    | nil => simp [segsOf] at h
    | cons p2 rest2 =>
      rcases List.mem_cons.mp h with hq | hq
      · have ha : a = p := congrArg Prod.fst hq
        have hb : b = p2 := congrArg Prod.snd hq
        subst ha; subst hb
        exact ⟨List.mem_cons_self _ _, List.mem_cons_of_mem _ (List.mem_cons_self _ _)⟩
      · obtain ⟨ha, hb⟩ := ih hq
        exact ⟨List.mem_cons_of_mem _ ha, List.mem_cons_of_mem _ hb⟩

/-- A point covered by a buffer geometry lies in the buffer's bounding box
(for the nonnegative radii the plugin produces). -/
theorem covers_bbox (g : Geom) (q : PointXY) (hr : 0 ≤ g.radius)
    (h : g.covers q = true) : g.boundingBox.containsP q := by
  cases g with
  | pointBuffer c r segs =>
    simp only [Geom.radius] at hr
    simp only [Geom.covers, decide_eq_true_eq] at h
    unfold dist_sq at h
    have hx : (q.x - c.x) * (q.x - c.x) ≤ r * r := by nlinarith [sq_nonneg (q.y - c.y)]
    have hy : (q.y - c.y) * (q.y - c.y) ≤ r * r := by nlinarith [sq_nonneg (q.x - c.x)]
    obtain ⟨hx1, hx2⟩ := sq_le_interval _ _ hx hr
    obtain ⟨hy1, hy2⟩ := sq_le_interval _ _ hy hr
    simp only [Geom.boundingBox, Rect.containsP]
    refine ⟨by linarith, by linarith, by linarith, by linarith⟩
  | lineBuffer pts r segs =>
    simp only [Geom.radius] at hr
    simp only [Geom.covers, List.any_eq_true, decide_eq_true_eq] at h
    obtain ⟨⟨a, b⟩, hmem, hd⟩ := h
    obtain ⟨ha, hb⟩ := segsOf_mem pts a b hmem
    obtain ⟨hax1, hax2, hay1, hay2⟩ := mem_bboxPts a pts ha
    obtain ⟨hbx1, hbx2, hby1, hby2⟩ := mem_bboxPts b pts hb
    rw [segDistSq] at hd
    set t := clamp01 (((q.x - a.x) * (b.x - a.x) + (q.y - a.y) * (b.y - a.y)) /
      ((b.x - a.x) * (b.x - a.x) + (b.y - a.y) * (b.y - a.y))) with ht
    have hcp : segClosest q a b = ⟨a.x + t * (b.x - a.x), a.y + t * (b.y - a.y)⟩ := rfl
    rw [hcp] at hd
    unfold dist_sq at hd
    simp only at hd
    have h0 : 0 ≤ t := clamp01_nonneg _
    have h1 : t ≤ 1 := clamp01_le_one _
    have hdx : (q.x - (a.x + t * (b.x - a.x))) * (q.x - (a.x + t * (b.x - a.x))) ≤ r * r := by
      nlinarith [sq_nonneg (q.y - (a.y + t * (b.y - a.y)))]
    have hdy : (q.y - (a.y + t * (b.y - a.y))) * (q.y - (a.y + t * (b.y - a.y))) ≤ r * r := by
      nlinarith [sq_nonneg (q.x - (a.x + t * (b.x - a.x)))]
    obtain ⟨hx1, hx2⟩ := sq_le_interval _ _ hdx hr
    obtain ⟨hy1, hy2⟩ := sq_le_interval _ _ hdy hr
    obtain ⟨hcx1, hcx2⟩ := convex_min_max a.x b.x t h0 h1
    obtain ⟨hcy1, hcy2⟩ := convex_min_max a.y b.y t h0 h1
    have hminx : (bboxPts pts).xmin ≤ min a.x b.x := le_min hax1 hbx1
    have hmaxx : max a.x b.x ≤ (bboxPts pts).xmax := max_le hax2 hbx2
    have hminy : (bboxPts pts).ymin ≤ min a.y b.y := le_min hay1 hby1
    have hmaxy : max a.y b.y ≤ (bboxPts pts).ymax := max_le hay2 hby2
    simp only [Geom.boundingBox, Rect.containsP]
    refine ⟨by linarith, by linarith, by linarith, by linarith⟩

theorem featureMatches_none (g : Geom) (f : Feature) (h : f.fgeom = none) :
    featureMatches g f = false := by
  unfold featureMatches
  rw [h]

theorem featureMatches_some (g : Geom) (f : Feature) (fg : FeatGeom)
    (h : f.fgeom = some fg) :
    featureMatches g f = if fg.isEmptyB then false else fg.intersectsG g := by
  unfold featureMatches
  rw [h]

theorem passesFilterRect_some (rect : Rect) (f : Feature) (fg : FeatGeom)
    (h : f.fgeom = some fg) :
    passesFilterRect rect f = (!fg.isEmptyB && Rect.intersectsB fg.bbox rect) := by
  unfold passesFilterRect
  rw [h]

/-- A feature that passes the skip checks and the exact intersection test
also passes the host's bbox request filter. -/
theorem matches_passes (g : Geom) (f : Feature) (hr : 0 ≤ g.radius)
    (h : featureMatches g f = true) :
    passesFilterRect g.boundingBox f = true := by
  cases hg : f.fgeom with
  | none => rw [featureMatches_none g f hg] at h; simp at h
  | some fg =>
    rw [featureMatches_some g f fg hg] at h
    cases hemp : fg.isEmptyB with
    | true => rw [hemp] at h; simp at h
    | false =>
      rw [hemp] at h
      simp only [Bool.false_eq_true, if_false] at h
      unfold FeatGeom.intersectsG at h
      rw [List.any_eq_true] at h
      obtain ⟨q, hq, hcov⟩ := h
      have h1 := mem_bboxPts q fg.pts hq
      have h2 := covers_bbox g q hr hcov
      rw [passesFilterRect_some g.boundingBox f fg hg, hemp]
      simp only [Bool.not_false, Bool.true_and]
      unfold Rect.intersectsB
      obtain ⟨ha1, ha2, ha3, ha4⟩ := h1
      obtain ⟨hb1, hb2, hb3, hb4⟩ := h2
      simp only [Bool.and_eq_true, decide_eq_true_eq, FeatGeom.bbox]
      exact ⟨⟨⟨by linarith, by linarith⟩, by linarith⟩, by linarith⟩

/-- C7: the bbox prefilter is sound and complete for the selection result:
for every corridor geometry (of the nonnegative radius the plugin always
produces) and every candidate feature list, running the exact intersection
loop on the bbox-filtered feature stream collects exactly the ids the exact
loop collects on all features — the prefilter never removes a feature whose
geometry intersects the corridor. -/
theorem c7_bbox_prefilter_sound (g : Geom) (feats : List Feature)
    (hr : 0 ≤ g.radius) :
    collectIdsPrefiltered g feats = collectIds g feats := by
  unfold collectIdsPrefiltered collectIds getFeaturesRect
  refine congrArg (List.map fun f : Feature => f.fid) ?_
  rw [List.filter_filter]
  refine List.filter_congr fun f _ => ?_
  cases hm : featureMatches g f with
  | false => simp
  | true => simp [matches_passes g f hr hm]

/-- Corridor used by the C7 witness. -/
def probeGeom : Geom := Geom.pointBuffer ⟨0, 0⟩ 2 8

/-- Features for the C7 witness: one inside the corridor, one far outside
(removed by the prefilter), one with missing geometry. -/
def probeFeats : List Feature :=
  [⟨5, some ⟨[⟨1, 1⟩]⟩⟩, ⟨7, some ⟨[⟨9, 9⟩]⟩⟩, ⟨9, none⟩]

/-- C7 witness: the prefiltered and unfiltered passes agree on a concrete
mixed feature list, both selecting exactly feature 5. -/
theorem c7_bbox_prefilter_sound_witness :
    collectIdsPrefiltered probeGeom probeFeats = collectIds probeGeom probeFeats
    ∧ collectIds probeGeom probeFeats = [5] := by
  refine ⟨c7_bbox_prefilter_sound probeGeom probeFeats (by norm_num [probeGeom, Geom.radius]), ?_⟩
  norm_num [collectIds, featureMatches, FeatGeom.isEmptyB, FeatGeom.intersectsG,
    Geom.covers, dist_sq, probeGeom, probeFeats, List.filter]

/-! Section: C8: the corridor builder never raises -/

/-- An engine on which every buffering call raises. -/
def failEngine : GeomEngine where
  bufferPoint := fun _ _ _ => none
  bufferLine := fun _ _ _ => none

/-- C8: `_build_stroke_geometry` never raises to its caller: the empty point
list yields `None` outright (for any engine), a buffering failure on a
multi-point stroke (the engine call returning `none`, i.e. raising into the
`try/except`) yields `None`, and `canvasReleaseEvent` runs the selection pass
exactly when the built corridor is non-null and nonempty — a null or empty
corridor means no selection pass and no error surfaced. -/
theorem c8_builder_never_raises (E : GeomEngine) (r : ℚ) (segs : ℕ)
    (pts : List PointXY) (a b : PointXY) (rest : List PointXY)
    (hE : E.bufferLine (a :: b :: rest) r (max 8 segs) = none) :
    build_stroke_geometry E [] r segs = none
    ∧ build_stroke_geometry E (a :: b :: rest) r segs = none
    ∧ (runsSelection pts r segs = true ↔
        ∃ g, build_stroke_geometry qgisEngine pts r segs = some g ∧
          g.isEmptyB = false)
    ∧ runsSelection [] r segs = false := by
  refine ⟨rfl, hE, ?_, rfl⟩
  unfold runsSelection
  cases hb : build_stroke_geometry qgisEngine pts r segs with
  | none => simp
  | some g => simp

/-- C8 witness: a degenerate two-point stroke on the always-failing engine
yields `None`, and an empty path runs no selection. -/
theorem c8_builder_never_raises_witness :
    build_stroke_geometry failEngine [⟨0, 0⟩, ⟨1, 0⟩] 1 8 = none
    ∧ runsSelection [] 1 8 = false := by
  have h := c8_builder_never_raises failEngine 1 8 [] ⟨0, 0⟩ ⟨1, 0⟩ [] rfl
  exact ⟨h.2.1, h.2.2.2⟩

end BrushSel
